import Mathlib

/-!
Verification development for the Felisha live-meeting transcription agent
(`felisha-agent/main.py`).

The agent joins a room, spawns one transcription worker per subscribed audio
track, and collects lines into a shared mutable list `transcript_lines`.
On the room-disconnected signal it cancels every spawned task, joins the
collected lines with newlines, and — when the joined text is not
whitespace-only — posts it once to the BakedBot API.

We embed the program shallowly:

* `processEvent` is the body of the worker loop acting on one STT event
  (`if event.type == FINAL_TRANSCRIPT: ... transcript_lines.append(line)`).
* `transcribe_track` is the worker's whole consume loop as a pure function
  from its private event stream to the sequence of lines it appends; a
  transducer error item terminates the loop (the `except Exception` handler
  logs and returns).
* `Session` / `sessionStep` / `run` give a cooperative interleaving
  semantics: a schedule is a list of worker indices; a step runs one loop
  iteration of one worker.  This mirrors single-threaded asyncio, where a
  task is only preempted at `await` points, so one loop iteration (receive
  event, append line) is atomic.
* `cancelAll`, `finalTranscript`, `entrypoint_finalize`, `entrypoint_drain`
  model the post-disconnect section of `entrypoint` (lines 71–84).
* `save_transcript_request` / `save_transcript_log` model the HTTP delivery
  function `save_transcript` (lines 109–123).
-/

/-- Model of Python's `str.strip()`: drop whitespace from both ends. -/
def pyStrip (s : String) : String :=
  ⟨((s.data.dropWhile Char.isWhitespace).reverse.dropWhile Char.isWhitespace).reverse⟩

/-- Event types of `livekit.agents.stt.SpeechEventType`; the worker loop
only distinguishes `FINAL_TRANSCRIPT` from everything else. -/
inductive SpeechEventType where
  | startOfSpeech
  | interimTranscript
  | finalTranscript
  | endOfSpeech
deriving DecidableEq, Repr

/-- One recognition alternative (`event.alternatives[k]`), carrying text. -/
structure SpeechAlternative where
  text : String
deriving DecidableEq, Repr

/-- One STT speech event: a type and a list of alternatives. -/
structure SpeechEvent where
  type : SpeechEventType
  alternatives : List SpeechAlternative
deriving DecidableEq, Repr

/-- Body of the worker loop for one event (main.py lines 96–101): on a
`FINAL_TRANSCRIPT` event whose first alternative has non-empty stripped
text, produce the line `f"{participant_name}: {text}"`; otherwise nothing.
The `match` on `alternatives` embeds the truthiness guard `if alts and ...`. -/
def processEvent (participant_name : String) (e : SpeechEvent) : Option String :=
  if e.type = .finalTranscript then
    match e.alternatives with
    | [] => none
    | a :: _ =>
      let text := pyStrip a.text
      if text = "" then none else some (participant_name ++ ": " ++ text)
  else none

/-- Fallible embedding of the same loop body where Python list indexing
`alts[0]` is modelled as a lookup that raises `IndexError` when out of
bounds.  The short-circuiting condition `if alts and alts[0].text.strip():`
tests the list for emptiness before indexing. -/
def processEventChecked (participant_name : String) (e : SpeechEvent) :
    Except String (Option String) :=
  if e.type = .finalTranscript then
    if e.alternatives.isEmpty then Except.ok none
    else
      match e.alternatives.get? 0 with
      | none => Except.error "IndexError"
      | some a =>
        let text := pyStrip a.text
        if text = "" then Except.ok none
        else Except.ok (some (participant_name ++ ": " ++ text))
  else Except.ok none

/-- An item of a worker's input stream: either an STT event or an error
raised by the transducer/stream (`except Exception` in main.py line 105). -/
inductive StreamItem where
  | ev (e : SpeechEvent)
  | err (msg : String)
deriving DecidableEq, Repr

/-- The whole worker consume loop (`transcribe_track`, lines 94–106) as a
pure function: the ordered list of lines this worker appends for its input
stream.  A transducer error terminates the loop (caught and logged), so
nothing after the first `err` item contributes. -/
def transcribe_track (participant_name : String) : List StreamItem → List String
  | [] => []
  | .err _ :: _ => []
  | .ev e :: rest =>
    (processEvent participant_name e).toList ++ transcribe_track participant_name rest

/-- State of one spawned transcription task. -/
structure Worker where
  name : String
  pending : List StreamItem
  cancelled : Bool
  done : Bool
deriving DecidableEq, Repr

/-- One iteration of the worker loop body without the `try`/`except`
handlers: raises on a transducer error item. -/
def workerBody (w : Worker) : Except String (Worker × Option String) :=
  match w.pending with
  | [] => Except.ok ({ w with done := true }, none)
  | .err msg :: _ => Except.error msg
  | .ev e :: rest => Except.ok ({ w with pending := rest }, processEvent w.name e)

/-- One iteration of the worker loop with the handlers of main.py lines
103–106: a cancelled task receives `CancelledError` at its suspension point
and terminates silently; any other exception is caught, logged, and
terminates this worker alone. -/
def workerStep (w : Worker) : Worker × Option String :=
  if w.done then (w, none)
  else if w.cancelled then ({ w with done := true, pending := [] }, none)
  else
    match workerBody w with
    | Except.ok r => r
    | Except.error _ => ({ w with done := true, pending := [] }, none)

/-- Session state: the spawned tasks (`active_tasks`, append-only) and the
shared `transcript_lines` list; each line is tagged with the index of the
worker that appended it so interleavings can be analysed. -/
structure Session where
  workers : List Worker
  transcript : List (Nat × String)
deriving DecidableEq, Repr

/-- Run one loop iteration of worker `i` (a no-op for an invalid index):
the atomic unit of interleaving under single-threaded asyncio. -/
def sessionStep (s : Session) (i : Nat) : Session :=
  match s.workers.get? i with
  | none => s
  | some w =>
    let r := workerStep w
    { workers := s.workers.set i r.fst,
      transcript := s.transcript ++ (r.snd.map (fun l => (i, l))).toList }

/-- Run a schedule: a list of worker indices, executed left to right. -/
def run (s : Session) (sched : List Nat) : Session :=
  sched.foldl sessionStep s

/-- Model of Python's `a or b` on strings: `b` when `a` is falsy (empty). -/
def pyOrStr (a b : String) : String :=
  if a = "" then b else a

/-- Speaker label computed on track subscription (main.py line 57):
`participant.name or participant.identity or "Unknown"`. -/
def speakerLabel (name identity : String) : String :=
  pyOrStr (pyOrStr name identity) "Unknown"

/-- Kind of a subscribed track; the handler only reacts to audio. -/
inductive TrackKind where
  | audio
  | video
deriving DecidableEq, Repr

/-- The `track_subscribed` handler (main.py lines 50–61): for an audio
track, spawn a worker named by `speakerLabel` and append its task to
`active_tasks`; other kinds are ignored. -/
def on_track_subscribed (s : Session) (kind : TrackKind)
    (pname identity : String) (items : List StreamItem) : Session :=
  if kind = .audio then
    { s with workers := s.workers ++
        [{ name := speakerLabel pname identity, pending := items,
           cancelled := false, done := false }] }
  else s

/-- A fresh session whose workers were spawned for the given
(participant label, stream) pairs, with an empty transcript. -/
def initSession (specs : List (String × List StreamItem)) : Session :=
  { workers := specs.map (fun p =>
      { name := p.fst, pending := p.snd, cancelled := false, done := false }),
    transcript := [] }

/-- `for task in active_tasks: task.cancel()` (main.py lines 74–75). -/
def cancelAll (s : Session) : Session :=
  { s with workers := s.workers.map (fun w => { w with cancelled := true }) }

/-- The shared `transcript_lines` list, without worker tags. -/
def transcriptLines (s : Session) : List String :=
  s.transcript.map Prod.snd

/-- The snapshot `"\n".join(transcript_lines)` (main.py line 78). -/
def finalTranscript (s : Session) : String :=
  String.intercalate "\n" (transcriptLines s)

/-- Request issued by `save_transcript` (main.py lines 109–117): URL,
bearer-token authorization header, and JSON body. -/
structure TranscriptPayload where
  roomName : String
  transcript : String
deriving DecidableEq, Repr

/-- An outgoing HTTP POST request as `save_transcript` builds it. -/
structure HttpRequest where
  url : String
  authorization : String
  body : TranscriptPayload
deriving DecidableEq, Repr

/-- The single POST request built by `save_transcript`. -/
def save_transcript_request (api_url api_key room_name transcript : String) :
    HttpRequest :=
  { url := api_url ++ "/api/livekit/transcript",
    authorization := "Bearer " ++ api_key,
    body := { roomName := room_name, transcript := transcript } }

/-- The list of requests one `save_transcript` call issues: exactly one,
regardless of how the response turns out (no retry loop exists). -/
def save_transcript_requests (api_url api_key room_name transcript : String) :
    List HttpRequest :=
  [save_transcript_request api_url api_key room_name transcript]

/-- Outcome of the HTTP call: a status code with body text, or a transport
failure (the `except Exception` branch). -/
inductive HttpResult where
  | status (code : Nat) (text : String)
  | transportError (msg : String)
deriving DecidableEq, Repr

/-- Log level emitted by the agent. -/
inductive LogLevel where
  | info
  | warning
  | error
deriving DecidableEq, Repr

/-- Response handling of `save_transcript` (main.py lines 118–123): 200 is
logged at info; any other status and any transport failure at error.  No
branch retries the request. -/
def save_transcript_log : HttpResult → LogLevel
  | .status code _ => if code = 200 then .info else .error
  | .transportError _ => .error

/-- Delivery decision of `entrypoint` (lines 81–84): post once when the
joined transcript has non-whitespace content, otherwise log a warning and
issue no request. -/
def entrypoint_finalize (api_url api_key room_name : String) (s : Session) :
    List HttpRequest :=
  if pyStrip (finalTranscript s) = "" then []
  else save_transcript_requests api_url api_key room_name (finalTranscript s)

/-- Primitive operations of the post-disconnect section of `entrypoint`,
in program order.  `waitForAck` is the operation the design document calls
for (await workers up to a grace period); it is listed so its absence from
the actual trace can be stated. -/
inductive DrainOp where
  | cancelTask (i : Nat)
  | waitForAck
  | takeSnapshot
  | deliver
  | logEmpty
deriving DecidableEq, Repr

/-- The operation trace of `entrypoint` after `disconnect_event.wait()`
returns (main.py lines 73–84): cancel every task in `active_tasks`, then
immediately join the transcript, then deliver or log. -/
def entrypoint_drain (s : Session) : List DrainOp :=
  ((List.range s.workers.length).map DrainOp.cancelTask)
    ++ [DrainOp.takeSnapshot]
    ++ (if pyStrip (finalTranscript s) = "" then [DrainOp.logEmpty]
        else [DrainOp.deliver])

/-- All spawned tasks have terminated. -/
def allDone (s : Session) : Bool :=
  s.workers.all (fun w => w.done)

/-- Lines of the transcript appended by worker `i`, in order. -/
def projT (i : Nat) (t : List (Nat × String)) : List String :=
  (t.filter (fun p => p.fst == i)).map Prod.snd

/-- Lines a worker will still append if left running to completion. -/
def live_output (w : Worker) : List String :=
  if w.done then []
  else if w.cancelled then []
  else transcribe_track w.name w.pending

/-- Lines still to come from an optional registry slot. -/
def restOf : Option Worker → List String
  | none => []
  | some w => live_output w

/-- Past plus future contribution of worker `i` to the transcript: the
quantity each scheduling step conserves. -/
def viewAt (s : Session) (i : Nat) : List String :=
  projT i s.transcript ++ restOf (s.workers.get? i)

/-- Concrete final STT event whose recognized text strips to
"Hello there". -/
def evHello : SpeechEvent :=
  { type := .finalTranscript, alternatives := [{ text := " Hello there " }] }

/-- Concrete interim STT event (a revisable partial result). -/
def evInterimHel : SpeechEvent :=
  { type := .interimTranscript, alternatives := [{ text := "hel" }] }

/-- Concrete final STT event with recognized text "Yo". -/
def evYo : SpeechEvent :=
  { type := .finalTranscript, alternatives := [{ text := "Yo" }] }

/-- Two participants, one final event each. -/
def specsAB : List (String × List StreamItem) :=
  [("Alice", [StreamItem.ev evHello]), ("Bob", [StreamItem.ev evYo])]

/-- An interleaved schedule running both workers to completion. -/
def schedAB : List Nat := [0, 1, 0, 1]

/-- Two participants; the first worker's transducer raises after one final
event, leaving a further event unconsumed behind the error. -/
def specsErr : List (String × List StreamItem) :=
  [("Alice", [StreamItem.ev evHello, StreamItem.err "boom", StreamItem.ev evYo]),
   ("Bob", [StreamItem.ev evYo])]

/-- An interleaved schedule running both workers to termination. -/
def schedErr : List Nat := [0, 1, 0, 1]

/-- A session drained mid-stream: one line already appended, one event
still pending, then every task cancelled. -/
def sessC8 : Session :=
  cancelAll (run (initSession
    [("Alice", [StreamItem.ev evHello, StreamItem.ev evYo])]) [0])

/-- Running the empty schedule is the identity. -/
theorem run_nil (s : Session) : run s [] = s := rfl

/-- Running a schedule step by step. -/
theorem run_cons (s : Session) (i : Nat) (σ : List Nat) :
    run s (i :: σ) = run (sessionStep s i) σ := rfl

/-- One worker iteration conserves the worker's past-plus-future output:
the line it emits (if any) plus what it will still emit equals what it was
going to emit before the step. -/
theorem workerStep_output (w : Worker) :
    (workerStep w).snd.toList ++ live_output (workerStep w).fst = live_output w := by
  rcases w with ⟨name, pending, cancelled, done⟩
  cases done
  · cases cancelled
    · cases pending with
      | nil => simp [workerStep, workerBody, live_output, transcribe_track]
      | cons hd tl =>
        cases hd with
        | ev e => simp [workerStep, workerBody, live_output, transcribe_track]
        | err m => simp [workerStep, workerBody, live_output, transcribe_track]
    · simp [workerStep, live_output]
  · simp [workerStep, live_output]

/-- Projection distributes over transcript concatenation. -/
theorem projT_append (i : Nat) (t u : List (Nat × String)) :
    projT i (t ++ u) = projT i t ++ projT i u := by
  simp [projT, List.filter_append]

/-- Projecting a worker's own tagged emission recovers the emission. -/
theorem projT_tag_eq (j : Nat) (o : Option String) :
    projT j ((o.map (fun l => (j, l))).toList) = o.toList := by
  cases o <;> simp [projT, List.filter]

/-- A sibling's projection ignores another worker's tagged emission. -/
theorem projT_tag_ne (i j : Nat) (o : Option String) (h : j ≠ i) :
    projT i ((o.map (fun l => (j, l))).toList) = [] := by
  cases o <;> simp [projT, List.filter_cons, h]

/-- Updating a valid registry slot makes the lookup return the new value. -/
theorem get?_set_of_get? {α : Type} (l : List α) (i : Nat) (a w : α)
    (h : l.get? i = some w) : (l.set i a).get? i = some a := by
  rw [List.get?_set_eq, h]
  rfl

/-- One scheduling step conserves every worker's past-plus-future
contribution to the transcript. -/
theorem sessionStep_viewAt (s : Session) (j i : Nat) :
    viewAt (sessionStep s j) i = viewAt s i := by
  unfold sessionStep
  cases h : s.workers.get? j with
  | none => simp
  | some w =>
    by_cases hij : j = i
    · subst hij
      simp only [viewAt, projT_append, restOf]
      rw [get?_set_of_get? _ _ _ _ h]
      simp only [projT_tag_eq]
      rw [List.append_assoc]
      rw [workerStep_output w, h]
    · simp only [viewAt, projT_append, restOf]
      rw [List.get?_set_ne _ _ hij, projT_tag_ne i j _ hij, List.append_nil]

/-- Any schedule conserves every worker's past-plus-future contribution. -/
theorem run_viewAt (σ : List Nat) (s : Session) (i : Nat) :
    viewAt (run s σ) i = viewAt s i := by
  induction σ generalizing s with
  | nil => rfl
  | cons j σ ih => rw [run_cons, ih (sessionStep s j), sessionStep_viewAt]

/-- A scheduling step never changes the number of registered tasks. -/
theorem sessionStep_workers_length (s : Session) (j : Nat) :
    (sessionStep s j).workers.length = s.workers.length := by
  unfold sessionStep
  cases h : s.workers.get? j <;> simp

/-- A schedule never changes the number of registered tasks. -/
theorem run_workers_length (σ : List Nat) (s : Session) :
    (run s σ).workers.length = s.workers.length := by
  induction σ generalizing s with
  | nil => rfl
  | cons j σ ih => rw [run_cons, ih (sessionStep s j), sessionStep_workers_length]

/-- A scheduling step only ever appends to the transcript. -/
theorem sessionStep_transcript_extend (s : Session) (j : Nat) :
    ∃ t, (sessionStep s j).transcript = s.transcript ++ t := by
  unfold sessionStep
  cases h : s.workers.get? j with
  | none => exact ⟨[], by simp⟩
  | some w => exact ⟨((workerStep w).snd.map (fun l => (j, l))).toList, by simp⟩

/-- A schedule only ever appends to the transcript: lines are never
retracted or reordered. -/
theorem run_transcript_extend (σ : List Nat) (s : Session) :
    ∃ t, (run s σ).transcript = s.transcript ++ t := by
  induction σ generalizing s with
  | nil => exact ⟨[], by simp [run]⟩
  | cons j σ ih =>
    obtain ⟨t1, h1⟩ := sessionStep_transcript_extend s j
    obtain ⟨t2, h2⟩ := ih (sessionStep s j)
    exact ⟨t1 ++ t2, by rw [run_cons, h2, h1, List.append_assoc]⟩

/-- A step naming an invalid registry slot is a no-op. -/
theorem sessionStep_none (s : Session) (j : Nat)
    (hj : s.workers.get? j = none) : sessionStep s j = s := by
  unfold sessionStep
  rw [hj]

/-- A step naming a valid registry slot runs that worker once. -/
theorem sessionStep_some (s : Session) (j : Nat) (w : Worker)
    (hj : s.workers.get? j = some w) :
    sessionStep s j =
      { workers := s.workers.set j (workerStep w).fst,
        transcript := s.transcript
          ++ ((workerStep w).snd.map (fun l => (j, l))).toList } := by
  unfold sessionStep
  rw [hj]

/-- A cancelled task emits no line when scheduled: `task.cancel()` raises
`CancelledError` at the task's suspension point, before any further append. -/
theorem workerStep_cancelled_silent (w : Worker) (h : w.cancelled = true) :
    (workerStep w).snd = none := by
  rcases w with ⟨name, pending, cancelled, done⟩
  cases done <;> simp_all [workerStep]

/-- A cancelled task stays cancelled after a step. -/
theorem workerStep_keeps_cancelled (w : Worker) (h : w.cancelled = true) :
    (workerStep w).fst.cancelled = true := by
  rcases w with ⟨name, pending, cancelled, done⟩
  cases done <;> simp_all [workerStep]

/-- A terminated or cancelled task stays terminated or cancelled. -/
theorem workerStep_keeps_inactive (w : Worker)
    (h : w.done = true ∨ w.cancelled = true) :
    (workerStep w).fst.done = true ∨ (workerStep w).fst.cancelled = true := by
  rcases w with ⟨name, pending, cancelled, done⟩
  cases done <;> cases cancelled <;> simp_all [workerStep]

/-- Every registry slot of a session holds a cancelled task. -/
def allCancelled (s : Session) : Prop :=
  ∀ i w, s.workers.get? i = some w → w.cancelled = true

/-- After `cancelAll`, every registry slot holds a cancelled task. -/
theorem cancelAll_allCancelled (s : Session) : allCancelled (cancelAll s) := by
  intro i w h
  simp only [cancelAll] at h
  rw [List.get?_map] at h
  cases hw : s.workers.get? i with
  | none => rw [hw] at h; cases h
  | some v => rw [hw] at h; cases h; rfl

/-- With every task cancelled, a scheduling step changes no transcript line
and keeps every task cancelled. -/
theorem sessionStep_sealed (s : Session) (j : Nat) (h : allCancelled s) :
    (sessionStep s j).transcript = s.transcript ∧ allCancelled (sessionStep s j) := by
  unfold sessionStep
  cases hj : s.workers.get? j with
  | none => exact ⟨rfl, h⟩
  | some w =>
    have hc := h j w hj
    refine ⟨by simp [workerStep_cancelled_silent w hc], ?_⟩
    intro i v hv
    simp only at hv
    by_cases hij : j = i
    · subst hij
      rw [get?_set_of_get? _ _ _ _ hj] at hv
      cases hv
      exact workerStep_keeps_cancelled w hc
    · rw [List.get?_set_ne _ _ hij] at hv
      exact h i v hv

/-- With every task cancelled, no schedule changes the transcript. -/
theorem run_sealed (σ : List Nat) (s : Session) (h : allCancelled s) :
    (run s σ).transcript = s.transcript := by
  induction σ generalizing s with
  | nil => rfl
  | cons j σ ih =>
    obtain ⟨h1, h2⟩ := sessionStep_sealed s j h
    rw [run_cons, ih (sessionStep s j) h2, h1]

/-- A terminated-or-cancelled task survives any schedule as
terminated-or-cancelled in the same registry slot. -/
theorem run_keeps_inactive (σ : List Nat) (s : Session) (i : Nat) (w : Worker)
    (h : s.workers.get? i = some w) (hw : w.done = true ∨ w.cancelled = true) :
    ∃ w', (run s σ).workers.get? i = some w'
      ∧ (w'.done = true ∨ w'.cancelled = true) := by
  induction σ generalizing s w with
  | nil => exact ⟨w, h, hw⟩
  | cons j σ ih =>
    rw [run_cons]
    rcases hj : s.workers.get? j with _ | v
    · exact ih (sessionStep s j) w (by rw [sessionStep_none s j hj]; exact h) hw
    · by_cases hij : j = i
      · subst hij
        rw [hj] at h
        injection h with h
        subst h
        refine ih _ _
          (by rw [sessionStep_some _ _ _ hj]; exact get?_set_of_get? _ _ _ _ hj)
          (workerStep_keeps_inactive _ hw)
      · exact ih (sessionStep s j) w
          (by rw [sessionStep_some s j v hj]; exact (List.get?_set_ne _ _ hij).trans h) hw

/-- The worker loop on a pure event stream appends exactly the lines of the
final events with non-empty stripped text, in emission order. -/
theorem transcribe_track_map_ev (participant_name : String) (evs : List SpeechEvent) :
    transcribe_track participant_name (evs.map StreamItem.ev)
      = evs.filterMap (processEvent participant_name) := by
  induction evs with
  | nil => rfl
  | cons e evs ih =>
    cases hp : processEvent participant_name e <;>
      simp [transcribe_track, hp, ih, List.filterMap_cons]

/-- A transducer error terminates the worker loop: lines before the error
are kept, nothing at or after the error contributes. -/
theorem transcribe_track_until_err (participant_name msg : String)
    (pre : List SpeechEvent) (post : List StreamItem) :
    transcribe_track participant_name
        (pre.map StreamItem.ev ++ StreamItem.err msg :: post)
      = pre.filterMap (processEvent participant_name) := by
  induction pre with
  | nil => rfl
  | cons e pre ih =>
    cases hp : processEvent participant_name e <;>
      simp [transcribe_track, hp, ih, List.filterMap_cons]

/-- Every transcript entry added by a step is tagged with a valid worker
index. -/
theorem sessionStep_tags (s : Session) (j : Nat) (p : Nat × String)
    (hp : p ∈ (sessionStep s j).transcript) :
    p ∈ s.transcript ∨ p.fst < s.workers.length := by
  unfold sessionStep at hp
  cases hj : s.workers.get? j with
  | none => rw [hj] at hp; exact Or.inl hp
  | some w =>
    rw [hj] at hp
    simp only [List.mem_append] at hp
    rcases hp with hp | hp
    · exact Or.inl hp
    · right
      obtain ⟨hlt, _⟩ := List.get?_eq_some.mp hj
      cases ho : (workerStep w).snd with
      | none => rw [ho] at hp; cases hp
      | some l =>
        rw [ho] at hp
        simp only [Option.map_some', Option.toList_some, List.mem_singleton] at hp
        rw [hp]
        exact hlt

/-- Every transcript entry of a completed run either predates the run or is
tagged with a valid worker index. -/
theorem run_tags (σ : List Nat) (s : Session) (p : Nat × String)
    (hp : p ∈ (run s σ).transcript) :
    p ∈ s.transcript ∨ p.fst < s.workers.length := by
  induction σ generalizing s with
  | nil => exact Or.inl hp
  | cons j σ ih =>
    rw [run_cons] at hp
    rcases ih (sessionStep s j) hp with h | h
    · exact sessionStep_tags s j p h
    · right
      rw [sessionStep_workers_length] at h
      exact h

/-- A transcript whose tags all lie below `N` has as many entries as the
sum of its per-worker projections: no entry is dropped or double counted. -/
theorem length_eq_sum_projT (N : Nat) (t : List (Nat × String))
    (h : ∀ p ∈ t, p.fst < N) :
    t.length = ∑ i in Finset.range N, (projT i t).length := by
  induction t with
  | nil => simp [projT]
  | cons p t ih =>
    have hp : p.fst < N := h p (List.mem_cons_self p t)
    have ht : ∀ q ∈ t, q.fst < N := fun q hq => h q (List.mem_cons_of_mem p hq)
    have hcons : ∀ i, (projT i (p :: t)).length
        = (if p.fst = i then 1 else 0) + (projT i t).length := by
      intro i
      by_cases he : p.fst = i <;> simp [projT, List.filter_cons, he, Nat.add_comm]
    calc (p :: t).length = 1 + t.length := by simp [Nat.add_comm]
    _ = 1 + ∑ i in Finset.range N, (projT i t).length := by rw [ih ht]
    _ = ∑ i in Finset.range N, (projT i (p :: t)).length := by
        simp [hcons, Finset.sum_add_distrib, Finset.sum_ite_eq, hp]

/-- In a run that terminates every worker, worker `i`'s projection of the
transcript is exactly the line sequence its own stream produces. -/
theorem run_projT_complete (specs : List (String × List StreamItem)) (σ : List Nat)
    (i : Nat) (participant_name : String) (items : List StreamItem)
    (hi : specs.get? i = some (participant_name, items))
    (hdone : allDone (run (initSession specs) σ) = true) :
    projT i (run (initSession specs) σ).transcript
      = transcribe_track participant_name items := by
  have hv := run_viewAt σ (initSession specs) i
  have hinit : (initSession specs).workers.get? i
      = some { name := participant_name, pending := items,
               cancelled := false, done := false } := by
    simp only [initSession]
    rw [List.get?_map, hi]
    rfl
  have hlen : i < (run (initSession specs) σ).workers.length := by
    rw [run_workers_length]
    obtain ⟨hlt, _⟩ := List.get?_eq_some.mp hinit
    exact hlt
  cases hw' : (run (initSession specs) σ).workers.get? i with
  | none =>
    rw [List.get?_eq_none] at hw'
    omega
  | some w' =>
    have hwdone : w'.done = true := by
      rw [allDone, List.all_eq_true] at hdone
      exact hdone w' (List.get?_mem hw')
    have hL : viewAt (run (initSession specs) σ) i
        = projT i (run (initSession specs) σ).transcript := by
      rw [viewAt, hw']
      simp [restOf, live_output, hwdone]
    have hR : viewAt (initSession specs) i
        = transcribe_track participant_name items := by
      rw [viewAt, hinit]
      have h0 : projT i (initSession specs).transcript = [] := rfl
      rw [h0]
      simp [restOf, live_output]
    calc projT i (run (initSession specs) σ).transcript
        = viewAt (run (initSession specs) σ) i := hL.symm
    _ = viewAt (initSession specs) i := hv
    _ = transcribe_track participant_name items := hR

/-- A line emitted by the loop body always has the shape
`speaker ++ ": " ++ stripped text` with non-empty stripped text. -/
theorem processEvent_shape (participant_name : String) (e : SpeechEvent)
    (l : String) (h : processEvent participant_name e = some l) :
    ∃ sp u, l = sp ++ ": " ++ pyStrip u ∧ pyStrip u ≠ "" := by
  unfold processEvent at h
  by_cases ht : e.type = .finalTranscript
  · rw [if_pos ht] at h
    cases halts : e.alternatives with
    | nil => rw [halts] at h; cases h
    | cons a rest =>
      rw [halts] at h
      simp only at h
      by_cases hs : pyStrip a.text = ""
      · rw [if_pos hs] at h; cases h
      · rw [if_neg hs] at h
        injection h with h
        exact ⟨participant_name, a.text, h.symm, hs⟩
  · rw [if_neg ht] at h
    cases h

/-- A line emitted by a worker step has the speaker-line shape. -/
theorem workerStep_shape (w : Worker) (l : String)
    (h : (workerStep w).snd = some l) :
    ∃ sp u, l = sp ++ ": " ++ pyStrip u ∧ pyStrip u ≠ "" := by
  rcases w with ⟨name, pending, cancelled, done⟩
  cases done
  · cases cancelled
    · cases pending with
      | nil => simp [workerStep, workerBody] at h
      | cons hd tl =>
        cases hd with
        | ev e =>
          simp only [workerStep, workerBody, Bool.false_eq_true, if_false] at h
          exact processEvent_shape name e l h
        | err m => simp [workerStep, workerBody] at h
    · simp [workerStep] at h
  · simp [workerStep] at h

/-- Every transcript line of any run from a session whose lines already
have the speaker-line shape keeps that shape. -/
theorem run_lines_shape (σ : List Nat) (s : Session)
    (h : ∀ p ∈ s.transcript, ∃ sp u, p.snd = sp ++ ": " ++ pyStrip u ∧ pyStrip u ≠ "") :
    ∀ p ∈ (run s σ).transcript,
      ∃ sp u, p.snd = sp ++ ": " ++ pyStrip u ∧ pyStrip u ≠ "" := by
  induction σ generalizing s with
  | nil => exact h
  | cons j σ ih =>
    rw [run_cons]
    refine ih (sessionStep s j) ?_
    intro p hp
    cases hj : s.workers.get? j with
    | none => rw [sessionStep_none s j hj] at hp; exact h p hp
    | some w =>
      rw [sessionStep_some s j w hj] at hp
      simp only [List.mem_append] at hp
      rcases hp with hp | hp
      · exact h p hp
      · cases ho : (workerStep w).snd with
        | none => rw [ho] at hp; cases hp
        | some l =>
          rw [ho] at hp
          simp only [Option.map_some', Option.toList_some, List.mem_singleton] at hp
          rw [hp]
          exact workerStep_shape w l ho

/-- A terminated or cancelled worker has no future output. -/
theorem live_output_inactive (v : Worker)
    (h : v.done = true ∨ v.cancelled = true) : live_output v = [] := by
  rcases h with hd | hc
  · simp [live_output, hd]
  · cases hvd : v.done <;> simp [live_output, hc, hvd]

/-- C1: the session-end snapshot is sealed by cancelling every task before
joining the lines; afterwards no scheduling of the workers appends
anything — every post-seal append attempt is a no-op — so the returned
transcript is unaffected by later activity and taking the snapshot again
yields the same content. -/
theorem seal_blocks_later_appends (s : Session) (σ : List Nat) :
    (run (cancelAll s) σ).transcript = s.transcript
    ∧ transcriptLines (run (cancelAll s) σ) = transcriptLines s
    ∧ finalTranscript (run (cancelAll s) σ) = finalTranscript (cancelAll s)
    ∧ finalTranscript (cancelAll s) = finalTranscript s := by
  have h1 : (run (cancelAll s) σ).transcript = (cancelAll s).transcript :=
    run_sealed σ (cancelAll s) (cancelAll_allCancelled s)
  have h2 : (cancelAll s).transcript = s.transcript := rfl
  have ht : (run (cancelAll s) σ).transcript = s.transcript := h1.trans h2
  refine ⟨ht, ?_, ?_, rfl⟩
  · rw [transcriptLines, ht]
    rfl
  · rw [finalTranscript, transcriptLines, ht]
    rfl

/-- C2 counterexample: for a concrete session with one live worker the
post-disconnect trace of `entrypoint` is cancel, then immediately the
snapshot, then delivery; it contains no wait-for-acknowledgment step, so
the controller does not wait for workers to acknowledge cancellation
(there is no grace period) before taking the transcript snapshot. -/
theorem drain_never_waits_counterexample :
    entrypoint_drain (run (initSession [("Alice", [StreamItem.ev evHello])]) [0])
      = [DrainOp.cancelTask 0, DrainOp.takeSnapshot, DrainOp.deliver]
    ∧ DrainOp.waitForAck ∉
        entrypoint_drain (run (initSession [("Alice", [StreamItem.ev evHello])]) [0]) := by
  constructor
  · decide
  · decide

/-- C2 amended: on the room-closed signal the controller broadcasts
cancellation to every registered worker and takes the transcript snapshot
immediately afterwards, with no wait-for-acknowledgment step anywhere in
the drain trace and no intervening operation between the cancellations and
the snapshot; the snapshot content equals the content at cancellation
time, and the workers are never awaited (abandoned, not blocked upon). -/
theorem drain_cancels_all_then_snapshots (s : Session) :
    (∀ w ∈ (cancelAll s).workers, w.cancelled = true)
    ∧ (∃ tail, entrypoint_drain s =
        ((List.range s.workers.length).map DrainOp.cancelTask)
          ++ DrainOp.takeSnapshot :: tail)
    ∧ DrainOp.waitForAck ∉ entrypoint_drain s
    ∧ finalTranscript (cancelAll s) = finalTranscript s := by
  refine ⟨?_, ?_, ?_, rfl⟩
  · intro w hw
    simp only [cancelAll, List.mem_map] at hw
    obtain ⟨v, _, rfl⟩ := hw
    rfl
  · by_cases hc : pyStrip (finalTranscript s) = ""
    · exact ⟨[DrainOp.logEmpty], by simp [entrypoint_drain, hc]⟩
    · exact ⟨[DrainOp.deliver], by simp [entrypoint_drain, hc]⟩
  · by_cases hc : pyStrip (finalTranscript s) = "" <;>
      simp [entrypoint_drain, hc]

/-- C3: an interim (non-final) STT event never appends a transcript line;
the loop body appends a line exactly for final events whose first
alternative has non-empty stripped text, the appended line being the
participant label joined with the stripped text; over a whole event stream
the appended lines are exactly those lines in emission order. -/
theorem final_events_only (participant_name : String) :
    (∀ e : SpeechEvent, e.type ≠ .finalTranscript →
        processEvent participant_name e = none)
    ∧ (∀ (e : SpeechEvent) (l : String),
        processEvent participant_name e = some l ↔
          e.type = .finalTranscript ∧
            ∃ a, e.alternatives.head? = some a ∧ pyStrip a.text ≠ "" ∧
              l = participant_name ++ ": " ++ pyStrip a.text)
    ∧ (∀ evs : List SpeechEvent,
        transcribe_track participant_name (evs.map StreamItem.ev)
          = evs.filterMap (processEvent participant_name)) := by
  refine ⟨?_, ?_, transcribe_track_map_ev participant_name⟩
  · intro e he
    simp [processEvent, he]
  · intro e l
    rcases e with ⟨ty, alts⟩
    by_cases ht : ty = SpeechEventType.finalTranscript
    · subst ht
      cases alts with
      | nil => simp [processEvent]
      | cons a rest =>
        by_cases hs : pyStrip a.text = ""
        · simp [processEvent, hs, eq_comm]
        · simp [processEvent, hs, eq_comm]
          exact fun _ hh => hs hh.symm
    · simp [processEvent, ht]

/-- Witness for C3: the concrete interim event appends nothing, and the
characterization produces the concrete line for the concrete final event. -/
theorem final_events_only_witness :
    processEvent "Alice" evInterimHel = none
    ∧ processEvent "Alice" evHello = some "Alice: Hello there" :=
  ⟨(final_events_only "Alice").1 evInterimHel (by decide),
   ((final_events_only "Alice").2.1 evHello "Alice: Hello there").mpr
     ⟨rfl, { text := " Hello there " }, rfl, by decide, by decide⟩⟩

/-- C4: a session whose sealed transcript strips to the empty string
issues zero delivery calls; a session whose sealed transcript has
non-whitespace content issues exactly one delivery call. -/
theorem empty_transcript_skips_delivery (api_url api_key room_name : String)
    (s : Session) :
    (pyStrip (finalTranscript s) = "" →
        entrypoint_finalize api_url api_key room_name s = [])
    ∧ (pyStrip (finalTranscript s) ≠ "" →
        (entrypoint_finalize api_url api_key room_name s).length = 1) := by
  constructor <;> intro h <;>
    simp [entrypoint_finalize, save_transcript_requests, h]

/-- Witness for C4: the empty session delivers nothing; the session with
one captured line delivers exactly once. -/
theorem empty_transcript_skips_delivery_witness :
    entrypoint_finalize "https://bakedbot.ai" "lk-key" "boardroom"
        (initSession [("Alice", [StreamItem.ev evHello])]) = []
    ∧ (entrypoint_finalize "https://bakedbot.ai" "lk-key" "boardroom"
        (run (initSession [("Alice", [StreamItem.ev evHello])]) [0])).length = 1 :=
  ⟨(empty_transcript_skips_delivery "https://bakedbot.ai" "lk-key" "boardroom"
      (initSession [("Alice", [StreamItem.ev evHello])])).1 (by decide),
   (empty_transcript_skips_delivery "https://bakedbot.ai" "lk-key" "boardroom"
      (run (initSession [("Alice", [StreamItem.ev evHello])]) [0])).2 (by decide)⟩

/-- C5: when delivery happens it is the single request built by
`save_transcript` — URL under the API base, bearer-token authorization
header, JSON body holding exactly the room name and the newline-joined
transcript whose every line has the shape `speaker ++ ": " ++ text` with
non-empty stripped text; at most one request is ever issued per session
(no retry), any status other than 200 is logged at error level, and so is
any transport failure. -/
theorem delivery_request_shape (api_url api_key room_name : String)
    (specs : List (String × List StreamItem)) (σ : List Nat) (r : HttpRequest)
    (hr : r ∈ entrypoint_finalize api_url api_key room_name
            (run (initSession specs) σ)) :
    r.url = api_url ++ "/api/livekit/transcript"
    ∧ r.authorization = "Bearer " ++ api_key
    ∧ r.body = { roomName := room_name,
                 transcript := String.intercalate "\n"
                   (transcriptLines (run (initSession specs) σ)) }
    ∧ (∀ l ∈ transcriptLines (run (initSession specs) σ),
        ∃ sp u, l = sp ++ ": " ++ pyStrip u ∧ pyStrip u ≠ "")
    ∧ (entrypoint_finalize api_url api_key room_name
        (run (initSession specs) σ)).length ≤ 1
    ∧ (∀ (code : Nat) (text : String), code ≠ 200 →
        save_transcript_log (HttpResult.status code text) = LogLevel.error)
    ∧ (∀ msg : String,
        save_transcript_log (HttpResult.transportError msg) = LogLevel.error) := by
  have hreq : r = save_transcript_request api_url api_key room_name
      (finalTranscript (run (initSession specs) σ)) := by
    by_cases hc : pyStrip (finalTranscript (run (initSession specs) σ)) = ""
    · rw [entrypoint_finalize, if_pos hc] at hr
      cases hr
    · rw [entrypoint_finalize, if_neg hc] at hr
      simpa [save_transcript_requests] using hr
  subst hreq
  refine ⟨rfl, rfl, rfl, ?_, ?_, ?_, fun msg => rfl⟩
  · intro l hl
    rw [transcriptLines, List.mem_map] at hl
    obtain ⟨p, hp, rfl⟩ := hl
    exact run_lines_shape σ (initSession specs) (fun q hq => absurd hq
      (List.not_mem_nil q)) p hp
  · by_cases hc : pyStrip (finalTranscript (run (initSession specs) σ)) = "" <;>
      simp [entrypoint_finalize, save_transcript_requests, hc]
  · intro code text h
    simp [save_transcript_log, h]

/-- Witness for C5: the concrete one-line session delivers a request whose
URL and authorization header are the concrete expected strings. -/
theorem delivery_request_shape_witness :
    (save_transcript_request "https://bakedbot.ai" "lk-key" "boardroom"
        "Alice: Hello there").url = "https://bakedbot.ai/api/livekit/transcript"
    ∧ (save_transcript_request "https://bakedbot.ai" "lk-key" "boardroom"
        "Alice: Hello there").authorization = "Bearer lk-key" := by
  have h := delivery_request_shape "https://bakedbot.ai" "lk-key" "boardroom"
    [("Alice", [StreamItem.ev evHello])] [0]
    (save_transcript_request "https://bakedbot.ai" "lk-key" "boardroom"
      "Alice: Hello there") (by decide)
  exact ⟨h.1.trans (by decide), h.2.1.trans (by decide)⟩

/-- C6: a transducer error inside one worker is a genuine exception of the
loop body, caught so that this worker alone terminates — the lines it
appended before the error are exactly its contribution, every sibling's
contribution is exactly what its own stream produces (unaffected by the
error), and the erroring step itself terminates the worker emitting
nothing. -/
theorem worker_error_isolated (specs : List (String × List StreamItem))
    (σ : List Nat) (k : Nat) (participant_name msg : String)
    (pre : List SpeechEvent) (post : List StreamItem)
    (hk : specs.get? k = some (participant_name,
            pre.map StreamItem.ev ++ StreamItem.err msg :: post))
    (hdone : allDone (run (initSession specs) σ) = true) :
    projT k (run (initSession specs) σ).transcript
      = pre.filterMap (processEvent participant_name)
    ∧ (∀ (j : Nat) (nj : String) (evj : List StreamItem), j ≠ k →
        specs.get? j = some (nj, evj) →
        projT j (run (initSession specs) σ).transcript = transcribe_track nj evj)
    ∧ workerBody { name := participant_name,
                   pending := StreamItem.err msg :: post,
                   cancelled := false, done := false }
        = Except.error msg
    ∧ workerStep { name := participant_name,
                   pending := StreamItem.err msg :: post,
                   cancelled := false, done := false }
        = ({ name := participant_name, pending := [], cancelled := false,
             done := true }, none) := by
  refine ⟨?_, ?_, rfl, rfl⟩
  · rw [run_projT_complete specs σ k participant_name _ hk hdone,
      transcribe_track_until_err]
  · intro j nj evj _ hj
    exact run_projT_complete specs σ j nj evj hj hdone

/-- Witness for C6: in the concrete two-worker session where Alice's
transducer raises after one final event, the completed run keeps Alice's
pre-error line and Bob's full line. -/
theorem worker_error_isolated_witness :
    allDone (run (initSession specsErr) schedErr) = true
    ∧ projT 0 (run (initSession specsErr) schedErr).transcript
        = ["Alice: Hello there"]
    ∧ projT 1 (run (initSession specsErr) schedErr).transcript = ["Bob: Yo"] := by
  refine ⟨by decide, ?_, ?_⟩
  · rw [(worker_error_isolated specsErr schedErr 0 "Alice" "boom" [evHello]
      [StreamItem.ev evYo] rfl (by decide)).1]
    decide
  · rw [(worker_error_isolated specsErr schedErr 0 "Alice" "boom" [evHello]
      [StreamItem.ev evYo] rfl (by decide)).2.1 1 "Bob" [StreamItem.ev evYo]
      (by decide) rfl]
    decide

/-- C7: in any completed interleaved run of N workers (absent
cancellation), each worker's projection of the final transcript is exactly
its own ordered line sequence, every transcript entry belongs to one of
the N workers, and the transcript's total length is the sum of the
per-worker projections — the union of all lines with no duplication, no
loss, and each worker's relative order preserved. -/
theorem merge_preserves_worker_order (specs : List (String × List StreamItem))
    (σ : List Nat)
    (hdone : allDone (run (initSession specs) σ) = true) :
    (∀ (i : Nat) (participant_name : String) (items : List StreamItem),
        specs.get? i = some (participant_name, items) →
        projT i (run (initSession specs) σ).transcript
          = transcribe_track participant_name items)
    ∧ (∀ p ∈ (run (initSession specs) σ).transcript, p.fst < specs.length)
    ∧ (run (initSession specs) σ).transcript.length
        = ∑ i in Finset.range specs.length,
            (projT i (run (initSession specs) σ).transcript).length := by
  have htags : ∀ p ∈ (run (initSession specs) σ).transcript,
      p.fst < specs.length := by
    intro p hp
    rcases run_tags σ (initSession specs) p hp with h | h
    · exact absurd h (List.not_mem_nil p)
    · simpa [initSession] using h
  refine ⟨?_, htags, length_eq_sum_projT specs.length _ htags⟩
  intro i pn items hi
  exact run_projT_complete specs σ i pn items hi hdone

/-- Witness for C7: the concrete interleaved two-worker run completes, and
each worker's projection is its own line. -/
theorem merge_preserves_worker_order_witness :
    allDone (run (initSession specsAB) schedAB) = true
    ∧ projT 0 (run (initSession specsAB) schedAB).transcript
        = ["Alice: Hello there"]
    ∧ projT 1 (run (initSession specsAB) schedAB).transcript = ["Bob: Yo"] := by
  refine ⟨by decide, ?_, ?_⟩
  · rw [(merge_preserves_worker_order specsAB schedAB (by decide)).1 0 "Alice"
      [StreamItem.ev evHello] rfl]
    decide
  · rw [(merge_preserves_worker_order specsAB schedAB (by decide)).1 1 "Bob"
      [StreamItem.ev evYo] rfl]
    decide

/-- C8 counterexample: worker 0 completes naturally (its stream is
exhausted, `allDone` holds), yet it is still present in the registry's
task list — `active_tasks` never has entries removed, so a completed
worker is not removed from the live set as the claim states. -/
theorem completed_worker_stays_registered :
    allDone (run (initSession [("Alice", [StreamItem.ev evHello])]) [0, 0]) = true
    ∧ (run (initSession [("Alice", [StreamItem.ev evHello])]) [0, 0]).workers
        = [{ name := "Alice", pending := [], cancelled := false, done := true }] := by
  constructor
  · decide
  · decide

/-- C8 amended: a worker that has terminated or been cancelled stays in
the registry's task list (the list never shrinks; the slot keeps holding a
terminated-or-cancelled worker) and performs no further appends under any
schedule — its projection of the transcript is frozen — while every line
appended before that point remains: the transcript only ever grows. -/
theorem inactive_worker_lines_persist (s : Session) (σ : List Nat) (i : Nat)
    (w : Worker) (h : s.workers.get? i = some w)
    (hw : w.done = true ∨ w.cancelled = true) :
    (run s σ).workers.length = s.workers.length
    ∧ (∃ t, (run s σ).transcript = s.transcript ++ t)
    ∧ projT i (run s σ).transcript = projT i s.transcript
    ∧ (∃ w', (run s σ).workers.get? i = some w'
        ∧ (w'.done = true ∨ w'.cancelled = true)) := by
  obtain ⟨w', hw', hia⟩ := run_keeps_inactive σ s i w h hw
  refine ⟨run_workers_length σ s, run_transcript_extend σ s, ?_, w', hw', hia⟩
  have hv := run_viewAt σ s i
  rw [viewAt, viewAt, h, hw'] at hv
  simp only [restOf] at hv
  rw [live_output_inactive w' hia, live_output_inactive w hw,
    List.append_nil, List.append_nil] at hv
  exact hv

/-- Witness for C8: the concrete drained session keeps its cancelled
worker's line frozen and its registry length unchanged. -/
theorem inactive_worker_lines_persist_witness :
    projT 0 (run sessC8 [0, 0]).transcript = projT 0 sessC8.transcript
    ∧ (run sessC8 [0, 0]).workers.length = sessC8.workers.length :=
  ⟨(inactive_worker_lines_persist sessC8 [0, 0] 0
      { name := "Alice", pending := [StreamItem.ev evYo], cancelled := true,
        done := false } (by decide) (by decide)).2.2.1,
   (inactive_worker_lines_persist sessC8 [0, 0] 0
      { name := "Alice", pending := [StreamItem.ev evYo], cancelled := true,
        done := false } (by decide) (by decide)).1⟩

/-- C9: subscribing an audio track spawns a worker whose speaker label is
`participant.name or participant.identity or "Unknown"`: an empty display
name is normalized to the identity when that is non-empty and otherwise to
the placeholder "Unknown", never left empty. -/
theorem empty_name_normalized (s : Session) (pname identity : String)
    (items : List StreamItem) :
    (on_track_subscribed s .audio pname identity items).workers.get?
        s.workers.length
      = some { name := speakerLabel pname identity, pending := items,
               cancelled := false, done := false }
    ∧ speakerLabel pname identity
        = (if pname ≠ "" then pname
           else if identity ≠ "" then identity else "Unknown")
    ∧ (pname = "" → speakerLabel pname identity ≠ "") := by
  refine ⟨?_, ?_, ?_⟩
  · simp only [on_track_subscribed, if_pos rfl]
    exact List.get?_concat_length _ _
  · by_cases h1 : pname = "" <;> by_cases h2 : identity = "" <;>
      simp [speakerLabel, pyOrStr, h1, h2]
  · intro h1
    by_cases h2 : identity = "" <;> simp [speakerLabel, pyOrStr, h1, h2]

/-- Witness for C9: with an empty display name the label falls back to the
identity, and with both empty it is the non-empty placeholder. -/
theorem empty_name_normalized_witness :
    speakerLabel "" "user-42" = "user-42" ∧ speakerLabel "" "" ≠ "" :=
  ⟨((empty_name_normalized (initSession []) "" "user-42" []).2.1).trans
     (by decide),
   (empty_name_normalized (initSession []) "" "" []).2.2 rfl⟩

/-- C10: the loop body's truthiness guard short-circuits before indexing,
so the fallible embedding (where `alts[0]` raises `IndexError` on an empty
list) never raises and agrees with the total model on every event; in
particular a final event with an empty alternatives list appends nothing. -/
theorem empty_alternatives_safe (participant_name : String) :
    (∀ e : SpeechEvent, processEventChecked participant_name e
        = Except.ok (processEvent participant_name e))
    ∧ (∀ ty : SpeechEventType,
        processEvent participant_name { type := ty, alternatives := [] }
          = none) := by
  constructor
  · intro e
    rcases e with ⟨ty, alts⟩
    by_cases ht : ty = SpeechEventType.finalTranscript
    · subst ht
      cases alts with
      | nil => rfl
      | cons a rest =>
        by_cases hs : pyStrip a.text = "" <;>
          simp [processEventChecked, processEvent, hs]
    · simp [processEventChecked, processEvent, ht]
  · intro ty
    by_cases ht : ty = SpeechEventType.finalTranscript <;>
      simp [processEvent, ht]

/-- Witness for the amended C2: for the concrete two-worker session the
drain trace contains no waiting step and the snapshot after cancellation
equals the snapshot content at cancellation time. -/
theorem drain_cancels_all_then_snapshots_witness :
    DrainOp.waitForAck ∉ entrypoint_drain (initSession specsAB)
    ∧ finalTranscript (cancelAll (initSession specsAB))
        = finalTranscript (initSession specsAB) :=
  ⟨(drain_cancels_all_then_snapshots (initSession specsAB)).2.2.1,
   (drain_cancels_all_then_snapshots (initSession specsAB)).2.2.2⟩
